import Mathlib

/-!
Shallow embedding of the feature-selection pipeline of the `12_lead_ecg`
repository (src/feature_selection.py), together with theorems settling the
spec's claims about it.

Conventions of the embedding:
* pandas tables are modelled at the granularity each claim needs: a list of
  records for the imputation code, a list of labels for the splitter and the
  trainer, a list of column names for the schema checks;
* Python floats are idealised as rationals (`ℚ`); a missing value (NaN) is
  `Option.none`, and a NaN-propagating comparison is a `Bool`-valued function
  that is `false` whenever either side is missing;
* `int(x)` (truncation toward zero) is `pyInt`; `round(x, 2)` (Python's
  banker's rounding) is `pyRound2`;
* numpy float division is `NpFloat`: dividing a positive count by zero gives
  `NpFloat.inf`, as `np.int64 / np.int64(0)` yields `inf`;
* the pseudo-random shuffle performed by `sklearn.model_selection
  .train_test_split(..., random_state=42)` is an opaque parameter
  `shuffle : List ℕ → List ℕ` assumed to permute its input; sklearn first
  validates the requested sizes — raising `ValueError` when the resulting
  train slice would be empty, i.e. when the list has fewer than 2 elements —
  and then takes `ceil(test_size * n)` elements for the test slice, which
  for `test_size = 0.2` is `n_test n = (n + 4) / 5`;
* exceptions propagated out of sklearn calls (`ValueError`s of the splitter
  validation, of `fit` on an empty training set, or of the cv=5 stratified
  fold construction) are modelled as `Except` error values; the in-place
  mutation of the caller's `param_grid` is the second component of `train`'s
  result, since it happens before the fallible sklearn call and persists
  even when that call raises;
* Python's `list.sort(key=..., reverse=True)` is a stable descending merge
  sort;
* exceptions are `Except`: `PdError.keyError` for a pandas column lookup
  failure, `PdError.valueError` for the explicit `raise ValueError` of
  `fill_age_height_weight`.
-/

namespace ECG

/-! ### Label maps (lines 10-46 of feature_selection.py) -/

/-- `DIAGNOSI_MAP` of the source: diagnosis text code to integer label,
in insertion order. -/
def DIAGNOSI_MAP : List (String × Nat) :=
  [("SR", 0), ("AFIB", 1), ("STACH", 0), ("SARRH", 2), ("SBRAD", 0),
   ("PACE", 3), ("SVARR", 4), ("BIGU", 5), ("AFLT", 6), ("SVTAC", 7),
   ("PSVT", 8), ("TRIGU", 9)]

/-- `max(list(DIAGNOSI_MAP.values()))` of the source. -/
def diagMax : Nat := (DIAGNOSI_MAP.map (·.2)).foldr max 0

/-- `CM_LABELS` of the source: an array of `max value + 1` empty strings,
overwritten at position `i` by each key `k` of `DIAGNOSI_MAP` in insertion
order, then position 0 is set to `"NSR"`. -/
def CM_LABELS : List String :=
  (DIAGNOSI_MAP.foldl (fun acc p => acc.set p.2 p.1)
    (List.replicate (diagMax + 1) "")).set 0 "NSR"

/-! ### Schema-level model of `format_df` (lines 48-115, 155-161) -/

/-- `DROP_COLUMNS` of the source. -/
def DROP_COLUMNS : List String :=
  ["ritmi", "ecg_id", "patient_id", "nurse", "site", "device",
   "recording_date", "report", "scp_codes", "infarction_stadium1",
   "infarction_stadium2", "initial_autogenerated_report", "baseline_drift",
   "static_noise", "burst_noise", "electrodes_problems", "extra_beats",
   "filename_lr", "filename_hr", "validated_by", "second_opinion",
   "validated_by_human", "strat_fold"]

/-- `required_columns` of `fill_age_height_weight` (line 156). -/
def requiredColumns : List String := ["age", "height", "weight"]

/-- Errors raised by the pandas-level code: `keyError` for a missing column
in a lookup/drop, `valueError` for the explicit schema check of
`fill_age_height_weight`. -/
inductive PdError where
  | keyError
  | valueError
deriving DecidableEq

/-- `df.drop(columns=...)` at schema level: pandas raises `KeyError` when a
column to drop is absent, otherwise returns the remaining columns. -/
def pdDropColumns (cols drop : List String) : Except PdError (List String) :=
  if drop.all (fun c => cols.contains c) then
    .ok (cols.filter (fun c => !(drop.contains c)))
  else
    .error .keyError

/-- Schema-level `fill_age_height_weight` (lines 118-192): first the explicit
check that `age`, `height`, `weight` are present (raising `ValueError`
otherwise, lines 155-161), then row-wise age filling and the grouped
height/weight fills, which read the `sex` column (`KeyError` if absent).
The set of columns is unchanged on success. -/
def fill_age_height_weight_schema (cols : List String) :
    Except PdError (List String) :=
  if requiredColumns.all (fun c => cols.contains c) then
    if cols.contains "sex" then .ok cols else .error .keyError
  else
    .error .valueError

/-- Schema-level `format_df` (lines 75-115): drop `DROP_COLUMNS`, run
`fill_age_height_weight`, then fill/encode `heart_axis`, `pacemaker` and
`diagnosi` (each a `KeyError` if the column is absent). -/
def format_df_schema (cols : List String) : Except PdError (List String) :=
  match pdDropColumns cols DROP_COLUMNS with
  | .error e => .error e
  | .ok cols1 =>
    match fill_age_height_weight_schema cols1 with
    | .error e => .error e
    | .ok cols2 =>
      if cols2.contains "heart_axis" && cols2.contains "pacemaker"
          && cols2.contains "diagnosi" then
        .ok cols2
      else
        .error .keyError

/-! ### Record-level model of `fill_age` (lines 133-153) -/

/-- One row of the table, restricted to the fields `fill_age` reads.
A `none` is a NaN. -/
structure Patient where
  age : Option ℚ
  height : Option ℚ
  weight : Option ℚ
deriving DecidableEq

/-- A NaN-propagating `>=`: false when either operand is missing. -/
def optGe (a b : Option ℚ) : Bool :=
  match a, b with
  | some x, some y => decide (y ≤ x)
  | _, _ => false

/-- A NaN-propagating `<=`: false when either operand is missing. -/
def optLe (a b : Option ℚ) : Bool :=
  match a, b with
  | some x, some y => decide (x ≤ y)
  | _, _ => false

/-- Python's `int(.)` on a rational: truncation toward zero. -/
def pyInt (q : ℚ) : ℤ := if q < 0 then ⌈q⌉ else ⌊q⌋

/-- `pandas.Series.median`: the middle element of the sorted values, or the
mean of the two middle elements for an even count. -/
def median (l : List ℚ) : ℚ :=
  let s := l.mergeSort (fun a b => decide (a ≤ b))
  if l.length % 2 = 1 then s.getD (l.length / 2) 0
  else (s.getD (l.length / 2 - 1) 0 + s.getD (l.length / 2) 0) / 2

/-- `df["age"].mean()`: the mean of the non-missing ages. -/
def meanAge (df : List Patient) : ℚ :=
  (df.filterMap (·.age)).sum / ((df.filterMap (·.age)).length : ℚ)

/-- The `age_subset` of `fill_age` (lines 142-148): ages of the rows of `df`
whose height lies in `[row.height - 2.5, row.height + 2.5]`, whose weight
lies in `[row.weight - 2, row.weight + 2]`, and whose age is not NaN.
Each comparison is NaN-propagating, exactly as in pandas. -/
def ageWindow (df : List Patient) (row : Patient) : List ℚ :=
  (df.filter (fun d =>
      optGe d.height (row.height.map (· - 5/2)) &&
      optLe d.height (row.height.map (· + 5/2)) &&
      optGe d.weight (row.weight.map (· - 2)) &&
      optLe d.weight (row.weight.map (· + 2)) &&
      d.age.isSome)).filterMap (·.age)

/-- `fill_age` (lines 133-153): a row with a missing age gets
`int(median(window) + 0.5)` when the window is non-empty, otherwise
`int(mean(age) + 0.5)`; a row with a known age is returned unchanged. -/
def fill_age (df : List Patient) (row : Patient) : Patient :=
  if row.age.isNone then
    let ages := ageWindow df row
    if 0 < ages.length then
      { row with age := some ((pyInt (median ages + 1/2) : ℤ) : ℚ) }
    else
      { row with age := some ((pyInt (meanAge df + 1/2) : ℤ) : ℚ) }
  else row

/-- Donor ages as the spec's sentence words them: records with a known age
whose height is within ±2.5 units and weight within ±2 units of the given
height `h` and weight `w`. Used to compare the spec's description of the
imputation window with the code's. -/
def donorAgesSpec (df : List Patient) (h w : ℚ) : List ℚ :=
  (df.filter (fun d =>
      d.age.isSome &&
      (match d.height with
       | some dh => decide (|dh - h| ≤ 5/2)
       | none => false) &&
      (match d.weight with
       | some dw => decide (|dw - w| ≤ 2)
       | none => false))).filterMap (·.age)

/-! ### The stratified splitter (lines 195-224) -/

/-- The sklearn test-slice size for `test_size = 0.2`:
`ceil(0.2 * n) = ceil(n / 5)`. -/
def n_test (n : Nat) : Nat := (n + 4) / 5

/-- `y.unique()`: the distinct labels in first-occurrence order. -/
def uniqueLabels {α : Type} [DecidableEq α] (y : List α) : List α :=
  (y.reverse.dedup).reverse

/-- `y[y == label].index.tolist()`: the positions of the records whose label
is `c`. -/
def classIndices {α : Type} [DecidableEq α] (y : List α) (c : α) : List Nat :=
  (List.range y.length).filter (fun i => decide (y.get? i = some c))

/-- The `ValueError` raised by sklearn's size validation. -/
inductive SkError where
  | valueError
deriving DecidableEq

/-- `sklearn.model_selection.train_test_split(l, test_size=0.2,
random_state=42)[1]` (lines 216-218): the splitter first validates the
requested sizes and raises `ValueError` when the resulting train slice
would be empty (`n - ceil(0.2 * n) = 0`, i.e. a list with fewer than 2
elements); otherwise the test slice is the first `ceil(0.2 * n)` elements
of the seeded shuffle, here the opaque permutation `shuffle`. -/
def sk_train_test_split (shuffle : List Nat → List Nat) (l : List Nat) :
    Except SkError (List Nat) :=
  if l.length - n_test l.length = 0 then .error .valueError
  else .ok ((shuffle l).take (n_test l.length))

/-- The test slice `sk_train_test_split` produces for class `c` when its
validation passes (the class has at least 2 members). -/
def classTestSlice {α : Type} [DecidableEq α] (shuffle : List Nat → List Nat)
    (y : List α) (c : α) : List Nat :=
  (shuffle (classIndices y c)).take (n_test (classIndices y c).length)

/-- The `for label in y.unique()` loop (lines 213-219): each class's index
list goes through `sk_train_test_split`; a `ValueError` (a class with fewer
than 2 members) aborts the whole call, otherwise the per-class test slices
accumulate in loop order. -/
def collectTestIndices {α : Type} [DecidableEq α]
    (shuffle : List Nat → List Nat) (y : List α) :
    List α → Except SkError (List Nat)
  | [] => .ok []
  | c :: cs =>
    match sk_train_test_split shuffle (classIndices y c) with
    | .error e => .error e
    | .ok slice =>
      match collectTestIndices shuffle y cs with
      | .error e => .error e
      | .ok rest => .ok (slice ++ rest)

/-- The accumulated `test_indices` in the non-raising case: what
`collectTestIndices` returns when every class passes validation. -/
def testIndices {α : Type} [DecidableEq α] (shuffle : List Nat → List Nat)
    (y : List α) : List Nat :=
  (uniqueLabels y).flatMap (classTestSlice shuffle y)

/-- `X.drop(test_indices)` (lines 220, 222): all positions not selected for
the test set, in the original order. -/
def trainIndices {α : Type} [DecidableEq α] (shuffle : List Nat → List Nat)
    (y : List α) : List Nat :=
  (List.range y.length).filter (fun i => !((testIndices shuffle y).contains i))

/-- `train_test_split_by_category` (lines 195-224), reduced to index sets:
the loop accumulates per-class test slices, propagating the sklearn
`ValueError` raised for any class with fewer than 2 members; on success the
train set is every position not selected for the test set. -/
def train_test_split_by_category {α : Type} [DecidableEq α]
    (shuffle : List Nat → List Nat) (y : List α) :
    Except SkError (List Nat × List Nat) :=
  match collectTestIndices shuffle y (uniqueLabels y) with
  | .error e => .error e
  | .ok test =>
    .ok ((List.range y.length).filter (fun i => !(test.contains i)), test)

/-! ### The trainer (lines 227-276) -/

/-- The value of a numpy float scalar produced by `total / count`:
finite, or `inf` when the divisor is the integer 0. -/
inductive NpFloat where
  | fin (q : ℚ)
  | inf
deriving DecidableEq

/-- numpy true division of two nonnegative integer scalars. -/
def npDivNat (a b : Nat) : NpFloat :=
  if b = 0 then .inf else .fin ((a : ℚ) / (b : ℚ))

/-- Whether a numpy float value is finite and strictly positive. -/
def NpFloat.isPos : NpFloat → Bool
  | .fin q => decide (0 < q)
  | .inf => false

/-- The length of `np.bincount(y)`: `max(y) + 1`, or 0 for an empty input. -/
def bincountLen (y : List Nat) : Nat :=
  if y.isEmpty then 0 else y.foldr max 0 + 1

/-- `np.bincount(y)`: occurrence counts of every integer from 0 through
`max(y)`. -/
def bincount (y : List Nat) : List Nat :=
  (List.range (bincountLen y)).map (fun i => y.count i)

/-- The `class_weight` dictionary of `train` (lines 241-246):
`{i: sum(class_counts) / class_counts[i] for i in range(len(class_counts))}`. -/
def class_weight (y : List Nat) : List (Nat × NpFloat) :=
  (List.range (bincount y).length).map
    (fun i => (i, npDivNat (bincount y).sum ((bincount y).getD i 0)))

/-- A candidate value of the `class_weight` hyperparameter: the string
`"balanced"` or a computed weight dictionary. -/
inductive CWCand where
  | balanced
  | computed (m : List (Nat × NpFloat))
deriving DecidableEq

/-- The hyperparameter search grid, with the keys the `__main__` block uses;
an absent `class_weight` key behaves like an empty candidate list (both are
falsy in Python). -/
structure ParamGrid where
  n_estimators : List Nat
  max_depth : List (Option Nat)
  min_samples_split : List Nat
  class_weight : List CWCand
deriving DecidableEq

/-- The errors the spec's Trainer contract names. `train` (lines 227-276)
contains no `raise` and defines no such exception, so no execution path of
the embedding produces one. -/
inductive TrainingError where
  | fewerThanTwoClasses
  | emptyFold
deriving DecidableEq

/-- A failure propagating out of `train`: either the spec's `TrainingError`
(which nothing in the repository ever constructs) or a `ValueError` raised
inside an sklearn call — `rf.fit` on an empty training set, or the cv=5
stratified fold construction of `grid_search.fit` when there are fewer than
5 samples or every class has fewer than 5 members. -/
inductive TrainFailure where
  | trainingError (e : TrainingError)
  | skValueError
deriving DecidableEq

/-- The constructor arguments of the returned `RandomForestClassifier`. -/
structure RFParams where
  n_estimators : Nat
  random_state : Nat
deriving DecidableEq

/-- Lines 248-250 of `train`: when `param_grid.get("class_weight")` is
truthy (a non-empty list), the computed class weights are appended to that
list, mutating the caller's dictionary; otherwise the grid is untouched. -/
def updateParamGrid (y : List Nat) (g : ParamGrid) : ParamGrid :=
  if g.class_weight.isEmpty then g
  else { g with class_weight := g.class_weight ++ [.computed (class_weight y)] }

/-- `train` (lines 227-276). The fitting itself is external to the
repository; `pick` stands for the hyperparameters the cross-validated grid
search selects (`grid_search.best_params_`), and the refit uses
`random_state=42`. Without a grid, `RandomForestClassifier(n_estimators=100,
random_state=42).fit` succeeds on any non-empty training set — a single
distinct class included — and raises sklearn's `ValueError` on an empty
one. With a grid, `grid_search.fit` with `cv=5` raises sklearn's
`ValueError` when there are fewer than 5 samples, or when every class has
fewer than 5 members (a merely under-populated class only warns and the
search proceeds). The function itself contains no `raise`, so no path
constructs a `TrainingError`. The second component is the final state of
the caller's `param_grid`: lines 249-250 mutate it before the fallible
sklearn call, so the mutation persists even when that call raises. -/
def train (pick : ParamGrid → RFParams) (y : List Nat) (pg : Option ParamGrid) :
    Except TrainFailure RFParams × Option ParamGrid :=
  match pg with
  | some g =>
      let g' := updateParamGrid y g
      (if y.length < 5 then .error .skValueError
       else if (uniqueLabels y).all (fun c => y.count c < 5) then
         .error .skValueError
       else .ok ⟨(pick g').n_estimators, 42⟩,
       some g')
  | none =>
      (if y.isEmpty then .error .skValueError else .ok ⟨100, 42⟩, none)

/-! ### The evaluator (lines 310-373) -/

/-- The label axis chosen by `sklearn.metrics.confusion_matrix(y, y_pred)`
when no `labels` argument is given: the sorted distinct values present in
either sequence. -/
def presentLabels (yt yp : List Nat) : List Nat :=
  ((yt ++ yp).dedup).mergeSort (fun a b => decide (a ≤ b))

/-- `confusion_matrix(y, y_pred)` as called on line 327 (no `labels`
argument): a square matrix over the labels present in the data, whose
`(i, j)` entry counts positions with true label `i` and predicted label
`j`. -/
def confusion_matrix (yt yp : List Nat) : List (List Nat) :=
  (presentLabels yt yp).map
    (fun i => (presentLabels yt yp).map (fun j => (yt.zip yp).count (i, j)))

/-- The confusion-matrix half of `create_reports` (lines 310-328); the
classification-report half is the sklearn dictionary with its keys renamed
through `LABELS` and plays no part in the matrix. -/
def create_reports_cm (y ypred : List Nat) : List (List Nat) :=
  confusion_matrix y ypred

/-- Rounding half-to-even of a rational, as Python's `round` does on
exact halves. -/
def roundHalfEven (q : ℚ) : ℤ :=
  if q - ⌊q⌋ < 1/2 then ⌊q⌋
  else if 1/2 < q - ⌊q⌋ then ⌊q⌋ + 1
  else if 2 ∣ ⌊q⌋ then ⌊q⌋ else ⌊q⌋ + 1

/-- Python's `round(q, 2)`. -/
def pyRound2 (q : ℚ) : ℚ := (roundHalfEven (q * 100) : ℚ) / 100

/-- The cell transformation of `create_report_table` (lines 356, 359, 363):
`vv if vv > 1 else round(vv * 100, 2)`. -/
def renderCell (v : ℚ) : ℚ := if 1 < v then v else pyRound2 (v * 100)

/-- One per-class entry of the classification report: precision, recall and
f1-score are ratios in `[0, 1]`; support is an integer count. -/
structure ClassMetrics where
  precision : ℚ
  recall' : ℚ
  f1 : ℚ
  support : Nat
deriving DecidableEq

/-- The four value cells of one rendered report row, in the dictionary order
`precision, recall, f1-score, support` (line 356). -/
def renderClassRow (m : ClassMetrics) : List ℚ :=
  [renderCell m.precision, renderCell m.recall', renderCell m.f1,
   renderCell (m.support : ℚ)]

/-- The classification report handed to `create_report_table`, after the
aggregate rows are popped (lines 350-352). -/
structure Report where
  classes : List (String × ClassMetrics)
  accuracy : ℚ
  macroAvg : ClassMetrics
  weightedAvg : ClassMetrics

/-- The labelled value rows built by `create_report_table` (lines 354-364):
one row per class, then the `macro avg` and `weighted avg` rows, each
rendered cell-wise through `renderCell`. The final accuracy row (line 365)
is a differently-shaped string cell and is modelled by `renderAccuracy`. -/
def create_report_table_rows (r : Report) : List (String × List ℚ) :=
  r.classes.map (fun p => (p.1, renderClassRow p.2)) ++
    [("macro avg", renderClassRow r.macroAvg),
     ("weighted avg", renderClassRow r.weightedAvg)]

/-- The numeric part of the accuracy cell `f"{round(accuracy * 100, 2)}%"`
(line 365). -/
def renderAccuracy (a : ℚ) : ℚ := pyRound2 (a * 100)

/-! ### The feature ranker (lines 407-424) -/

/-- The comparison under `ordered.sort(key=lambda x: x[1], reverse=True)`:
`a` may precede `b` exactly when `a`'s importance is at least `b`'s.
Python's sort is stable, so ties keep their original order. -/
def featImportDesc (a b : String × ℚ) : Bool := decide (b.2 ≤ a.2)

/-- `select_features` (lines 407-424): pair each column name with its
importance (`zip`, truncating to the shorter of the two lists exactly as
Python's `zip` does) and stably sort by importance, highest first. -/
def select_features (cols : List String) (imps : List ℚ) :
    List (String × ℚ) :=
  (cols.zip imps).mergeSort featImportDesc

/-! ## Helper lemmas -/

theorem countP_lt_succ (y : List Nat) (n : Nat) :
    y.countP (fun a => decide (a < n + 1)) =
      y.countP (fun a => decide (a < n)) + y.count n := by
  induction y with
  | nil => simp
  | cons a t ih =>
    simp only [List.countP_cons, List.count_cons, ih, beq_iff_eq]
    rcases Nat.lt_trichotomy a n with h | h | h
    · simp only [decide_eq_true_eq, if_pos h, if_pos (Nat.lt_succ_of_lt h),
        if_neg (Nat.ne_of_lt h)]
      omega
    · subst h
      simp only [decide_eq_true_eq, if_pos (Nat.lt_succ_self a),
        if_neg (Nat.lt_irrefl a), eq_self_iff_true, if_true]
      omega
    · have h1 : ¬ a < n := Nat.not_lt.mpr (Nat.le_of_lt h)
      have h2 : ¬ a < n + 1 := Nat.not_lt.mpr h
      have h3 : ¬ a = n := Nat.ne_of_gt h
      simp [h1, h2, h3]

theorem sum_range_count (y : List Nat) (n : Nat) :
    ((List.range n).map (fun i => y.count i)).sum =
      y.countP (fun a => decide (a < n)) := by
  induction n with
  | zero => simp [List.countP_eq_length_filter, List.filter_eq_nil_iff]
  | succ n ih =>
    rw [List.range_succ, List.map_append, List.sum_append, ih, countP_lt_succ]
    simp

theorem mem_le_foldr_max (y : List Nat) (a : Nat) (h : a ∈ y) :
    a ≤ y.foldr max 0 := by
  induction y with
  | nil => cases h
  | cons b t ih =>
    rcases List.mem_cons.mp h with rfl | h
    · exact Nat.le_max_left _ _
    · exact Nat.le_trans (ih h) (Nat.le_max_right _ _)

theorem sum_bincount (y : List Nat) : (bincount y).sum = y.length := by
  rw [bincount, sum_range_count]
  apply List.countP_eq_length.mpr
  intro a ha
  have hne : ¬ y.isEmpty := by
    cases y with
    | nil => cases ha
    | cons b t => simp
  simp only [bincountLen, if_neg hne]
  exact decide_eq_true (Nat.lt_succ_of_le (mem_le_foldr_max y a ha))

theorem length_bincount (y : List Nat) : (bincount y).length = bincountLen y := by
  rw [bincount, List.length_map, List.length_range]

theorem bincount_getD (y : List Nat) (i : Nat) (hi : i < bincountLen y) :
    (bincount y).getD i 0 = y.count i := by
  have hlen : i < (bincount y).length := by rwa [length_bincount]
  rw [List.getD_eq_getElem _ _ hlen]
  simp [bincount]

theorem class_weight_entry (y : List Nat) (i : Nat) (hi : i < bincountLen y) :
    (i, npDivNat y.length (y.count i)) ∈ class_weight y := by
  rw [class_weight]
  refine List.mem_map.mpr ⟨i, List.mem_range.mpr (by rwa [length_bincount]), ?_⟩
  rw [sum_bincount, bincount_getD y i hi]

theorem class_weight_shape (y : List Nat) {p : Nat × NpFloat}
    (hp : p ∈ class_weight y) :
    p.1 < bincountLen y ∧ p.2 = npDivNat y.length (y.count p.1) := by
  rw [class_weight] at hp
  obtain ⟨i, hi, rfl⟩ := List.mem_map.mp hp
  rw [length_bincount] at hi
  have hi' := List.mem_range.mp hi
  exact ⟨hi', by rw [sum_bincount, bincount_getD y i hi']⟩

theorem length_pos_of_bincountLen_pos {y : List Nat} (h : 0 < bincountLen y) :
    0 < y.length := by
  cases y with
  | nil => simp [bincountLen] at h
  | cons a t => simp

theorem ageWindow_eq_spec (df : List Patient) (row : Patient) (h w : ℚ)
    (hh : row.height = some h) (hw : row.weight = some w) :
    ageWindow df row = donorAgesSpec df h w := by
  rw [ageWindow, donorAgesSpec]
  congr 1
  apply List.filter_congr
  intro d _
  rw [hh, hw, Option.map_some', Option.map_some', Option.map_some',
    Option.map_some']
  rcases d.age with _ | a <;> rcases d.height with _ | dh <;>
    rcases d.weight with _ | dw <;>
      simp only [optGe, optLe, Option.isSome_none, Option.isSome_some,
        Bool.and_true, Bool.and_false, Bool.false_and, Bool.true_and,
        Bool.and_self]
  rw [Bool.eq_iff_iff]
  simp only [Bool.and_eq_true, decide_eq_true_eq, abs_le]
  constructor
  · rintro ⟨⟨⟨h1, h2⟩, h3⟩, h4⟩
    exact ⟨⟨by linarith, by linarith⟩, by linarith, by linarith⟩
  · rintro ⟨⟨h1, h2⟩, h3, h4⟩
    exact ⟨⟨⟨by linarith, by linarith⟩, by linarith⟩, by linarith⟩

theorem mem_classIndices {α : Type} [DecidableEq α] {y : List α} {c : α}
    {i : Nat} : i ∈ classIndices y c ↔ y.get? i = some c := by
  rw [classIndices]
  simp only [List.mem_filter, List.mem_range, decide_eq_true_eq]
  constructor
  · exact fun h => h.2
  · intro h
    obtain ⟨hlt, _⟩ := List.get?_eq_some.mp h
    exact ⟨hlt, h⟩

theorem classIndices_length {α : Type} [DecidableEq α] (y : List α) (c : α) :
    (classIndices y c).length = y.count c := by
  rw [classIndices, ← List.countP_eq_length_filter]
  induction y with
  | nil => simp
  | cons a t ih =>
    rw [List.length_cons, List.range_succ_eq_map, List.countP_cons,
      List.countP_map, List.count_cons]
    have hcomp : ((fun i => decide ((a :: t).get? i = some c)) ∘ Nat.succ) =
        (fun i => decide (t.get? i = some c)) := by
      funext i
      simp [List.get?_cons_succ]
    rw [hcomp, ih]
    by_cases hac : a = c
    · simp [hac]
    · simp [hac]

theorem mem_uniqueLabels {α : Type} [DecidableEq α] {y : List α} {c : α} :
    c ∈ uniqueLabels y ↔ c ∈ y := by
  rw [uniqueLabels]
  simp [List.mem_reverse, List.mem_dedup]

theorem uniqueLabels_nodup {α : Type} [DecidableEq α] (y : List α) :
    (uniqueLabels y).Nodup := by
  rw [uniqueLabels]
  exact List.nodup_reverse.mpr (List.nodup_dedup _)

theorem mem_classTestSlice {α : Type} [DecidableEq α]
    {shuffle : List Nat → List Nat} (hs : ∀ l, (shuffle l).Perm l)
    {y : List α} {c : α} {i : Nat} (h : i ∈ classTestSlice shuffle y c) :
    y.get? i = some c := by
  rw [classTestSlice] at h
  have h1 : i ∈ shuffle (classIndices y c) :=
    List.Sublist.mem h (List.take_sublist _ _)
  exact mem_classIndices.mp ((hs _).mem_iff.mp h1)

theorem classTestSlice_length {α : Type} [DecidableEq α]
    {shuffle : List Nat → List Nat} (hs : ∀ l, (shuffle l).Perm l)
    (y : List α) (c : α) :
    (classTestSlice shuffle y c).length = n_test (y.count c) := by
  rw [classTestSlice, List.length_take, (hs _).length_eq, classIndices_length]
  have hle : n_test (y.count c) ≤ y.count c := by
    rw [n_test]
    omega
  exact Nat.min_eq_left hle

theorem testIndices_lt_length {α : Type} [DecidableEq α]
    {shuffle : List Nat → List Nat} (hs : ∀ l, (shuffle l).Perm l)
    {y : List α} {i : Nat} (h : i ∈ testIndices shuffle y) : i < y.length := by
  rw [testIndices] at h
  obtain ⟨c, _, hic⟩ := List.mem_flatMap.mp h
  obtain ⟨hlt, _⟩ := List.get?_eq_some.mp (mem_classTestSlice hs hic)
  exact hlt

theorem flatMap_congr {γ β : Type} {U : List γ} {f g : γ → List β}
    (h : ∀ x ∈ U, f x = g x) : U.flatMap f = U.flatMap g := by
  induction U with
  | nil => rfl
  | cons u us ih =>
    rw [List.flatMap_cons, List.flatMap_cons, h u (List.mem_cons_self u us),
      ih (fun x hx => h x (List.mem_cons_of_mem u hx))]

theorem flatMap_ite_eq {γ β : Type} [DecidableEq γ] {U : List γ}
    (hU : U.Nodup) {c : γ} (hc : c ∈ U) (g : γ → List β) :
    (U.flatMap (fun x => if x = c then g x else [])) = g c := by
  induction U with
  | nil => cases hc
  | cons u us ih =>
    rw [List.flatMap_cons]
    obtain ⟨hnotmem, hnodup⟩ := List.nodup_cons.mp hU
    by_cases h : u = c
    · subst h
      rw [if_pos rfl]
      have hrest : us.flatMap (fun x => if x = u then g x else []) = [] :=
        List.flatMap_eq_nil_iff.mpr
          (fun x hx => if_neg (fun hxc => hnotmem (by rw [← hxc]; exact hx)))
      rw [hrest, List.append_nil]
    · rw [if_neg h, List.nil_append]
      exact ih hnodup ((List.mem_cons.mp hc).resolve_left (fun he => h he.symm))

theorem testIndices_class_count {α : Type} [DecidableEq α]
    {shuffle : List Nat → List Nat} (hs : ∀ l, (shuffle l).Perm l)
    (y : List α) {c : α} (hc : c ∈ y) :
    (testIndices shuffle y).countP (fun i => decide (y.get? i = some c)) =
      n_test (y.count c) := by
  rw [List.countP_eq_length_filter, testIndices, List.filter_flatMap]
  have step2 : (uniqueLabels y).flatMap
      (fun a => (classTestSlice shuffle y a).filter
        (fun i => decide (y.get? i = some c))) =
      (uniqueLabels y).flatMap
        (fun a => if a = c then classTestSlice shuffle y a else []) := by
    apply flatMap_congr
    intro c' _
    by_cases h : c' = c
    · subst h
      rw [if_pos rfl]
      exact List.filter_eq_self.mpr
        (fun a ha => decide_eq_true (mem_classTestSlice hs ha))
    · rw [if_neg h]
      apply List.filter_eq_nil_iff.mpr
      intro a ha
      have hget := mem_classTestSlice hs ha
      simp only [hget, decide_eq_true_eq, Option.some.injEq]
      exact h
  rw [step2, flatMap_ite_eq (uniqueLabels_nodup y) (mem_uniqueLabels.mpr hc),
    classTestSlice_length hs]

theorem sk_train_test_split_singleton (shuffle : List Nat → List Nat)
    (i : Nat) : sk_train_test_split shuffle [i] = .error .valueError := by
  have hc : [i].length - n_test [i].length = 0 := by
    simp only [List.length_cons, List.length_nil, n_test]
  rw [sk_train_test_split, if_pos hc]

theorem sk_train_test_split_ok {shuffle : List Nat → List Nat}
    {l : List Nat} (h : 2 ≤ l.length) :
    sk_train_test_split shuffle l = .ok ((shuffle l).take (n_test l.length)) := by
  have hne : l.length - n_test l.length ≠ 0 := by
    rw [n_test]
    omega
  rw [sk_train_test_split, if_neg hne]

theorem collectTestIndices_ok {α : Type} [DecidableEq α]
    {shuffle : List Nat → List Nat} {y : List α} {cs : List α}
    {t : List Nat} (h : collectTestIndices shuffle y cs = .ok t) :
    t = cs.flatMap (classTestSlice shuffle y) := by
  induction cs generalizing t with
  | nil =>
    simp only [collectTestIndices, Except.ok.injEq] at h
    subst h
    rfl
  | cons c cs ih =>
    simp only [collectTestIndices] at h
    cases hsk : sk_train_test_split shuffle (classIndices y c) with
    | error e =>
      rw [hsk] at h
      simp at h
    | ok slice =>
      rw [hsk] at h
      cases hrest : collectTestIndices shuffle y cs with
      | error e =>
        rw [hrest] at h
        simp at h
      | ok rest =>
        rw [hrest] at h
        simp only [Except.ok.injEq] at h
        subst h
        rw [List.flatMap_cons, ← ih hrest]
        have hslice : slice = classTestSlice shuffle y c := by
          rw [sk_train_test_split] at hsk
          by_cases hcond : (classIndices y c).length -
              n_test (classIndices y c).length = 0
          · rw [if_pos hcond] at hsk
            simp at hsk
          · rw [if_neg hcond] at hsk
            simp only [Except.ok.injEq] at hsk
            rw [classTestSlice, ← hsk]
        rw [hslice]

theorem n_test_round (n : Nat) :
    |((n_test n : ℤ)) - round ((1/5 : ℚ) * (n : ℚ))| ≤ 1 := by
  obtain ⟨q, r, hr, rfl⟩ : ∃ q r, r < 5 ∧ n = 5 * q + r :=
    ⟨n / 5, n % 5, Nat.mod_lt _ (by norm_num), (Nat.div_add_mod n 5).symm⟩
  have hsplit : (1/5 : ℚ) * ((5 * q + r : ℕ) : ℚ) =
      ((q : ℤ) : ℚ) + (1/5 : ℚ) * (r : ℚ) := by
    push_cast
    ring
  have hround : round ((1/5 : ℚ) * ((5 * q + r : ℕ) : ℚ)) =
      (q : ℤ) + round ((1/5 : ℚ) * (r : ℚ)) := by
    rw [hsplit, round_int_add]
  have hrv : round ((1/5 : ℚ) * (r : ℚ)) = if r ≤ 2 then 0 else 1 := by
    interval_cases r <;> norm_num [round_eq]
  rw [hround, hrv, abs_le, n_test]
  constructor <;> split_ifs <;> omega

theorem featImportDesc_trans : ∀ a b c : String × ℚ,
    featImportDesc a b = true → featImportDesc b c = true →
      featImportDesc a c = true := by
  intro a b c h1 h2
  simp only [featImportDesc, decide_eq_true_eq] at h1 h2 ⊢
  exact le_trans h2 h1

theorem featImportDesc_total : ∀ a b : String × ℚ,
    (featImportDesc a b || featImportDesc b a) = true := by
  intro a b
  simp only [featImportDesc, Bool.or_eq_true, decide_eq_true_eq]
  exact le_total b.2 a.2

/-! ## Claims -/

/-- C1: for every dataset and target column (modelled as the label list
`y`), and every permutation `shuffle` standing for the seeded
`train_test_split` draw, whenever `train_test_split_by_category` returns a
split — sklearn raises `ValueError` instead when some class has fewer than
2 members — the returned train and test position sets are disjoint, their
union is exactly the input positions, and each class `c` contributes a
number of test records within 1 of `round(0.2 * count c)`. -/
theorem train_test_split_by_category_spec {α : Type} [DecidableEq α]
    (shuffle : List Nat → List Nat) (hs : ∀ l, (shuffle l).Perm l)
    (y : List α) (tr te : List Nat)
    (hok : train_test_split_by_category shuffle y = .ok (tr, te)) :
    (∀ i, (i ∈ tr ∨ i ∈ te) ↔ i < y.length) ∧
    (∀ i, ¬(i ∈ tr ∧ i ∈ te)) ∧
    (∀ c ∈ y,
      |((te.countP (fun i => decide (y.get? i = some c)) : ℤ)) -
        round ((1/5 : ℚ) * (y.count c : ℚ))| ≤ 1) := by
  rw [train_test_split_by_category] at hok
  cases hcol : collectTestIndices shuffle y (uniqueLabels y) with
  | error e =>
    rw [hcol] at hok
    simp at hok
  | ok t =>
    rw [hcol] at hok
    have hteq : t = testIndices shuffle y := by
      rw [testIndices]
      exact collectTestIndices_ok hcol
    simp only [Except.ok.injEq, Prod.mk.injEq] at hok
    obtain ⟨htr, hte⟩ := hok
    subst hte
    subst hteq
    have htr' : tr = trainIndices shuffle y := by
      rw [trainIndices, ← htr]
    subst htr'
    refine ⟨?_, ?_, ?_⟩
    · intro i
      constructor
      · rintro (h | h)
        · exact List.mem_range.mp (List.mem_filter.mp h).1
        · exact testIndices_lt_length hs h
      · intro hlt
        by_cases ht : i ∈ testIndices shuffle y
        · exact Or.inr ht
        · refine Or.inl (List.mem_filter.mpr ⟨List.mem_range.mpr hlt, ?_⟩)
          simpa using ht
    · rintro i ⟨h1, h2⟩
      have hnot := (List.mem_filter.mp h1).2
      have hn : i ∉ testIndices shuffle y := by simpa using hnot
      exact hn h2
    · intro c hc
      rw [testIndices_class_count hs y hc]
      exact n_test_round (y.count c)

/-- C1 witness: the identity permutation and the labels `[0, 0, 1, 0, 1]`
(both classes have at least 2 members), where the splitter returns the
train positions `[1, 3, 4]` and the test positions `[0, 2]`. -/
theorem train_test_split_by_category_spec_witness :
    (∀ l : List Nat, (id l).Perm l) ∧
    train_test_split_by_category id [0, 0, 1, 0, 1] = .ok ([1, 3, 4], [0, 2]) ∧
    ((∀ i, (i ∈ [1, 3, 4] ∨ i ∈ [0, 2]) ↔ i < [0, 0, 1, 0, 1].length) ∧
     (∀ i, ¬(i ∈ [1, 3, 4] ∧ i ∈ [0, 2])) ∧
     (∀ c ∈ [0, 0, 1, 0, 1],
       |(([0, 2].countP
           (fun i => decide ([0, 0, 1, 0, 1].get? i = some c)) : ℤ)) -
         round ((1/5 : ℚ) * ([0, 0, 1, 0, 1].count c : ℚ))| ≤ 1)) :=
  ⟨fun l => List.Perm.refl l, by rfl,
   train_test_split_by_category_spec id (fun l => List.Perm.refl l)
     [0, 0, 1, 0, 1] [1, 3, 4] [0, 2] (by rfl)⟩

/-- C2: a record with missing age and known height `h` and weight `w` is
imputed from the donor window the spec describes — records with a known age,
height within ±2.5 of `h` and weight within ±2 of `w`: a non-empty window
gives the rounded-half-up median of the window's ages, an empty window gives
the rounded-half-up global mean age (the table is assumed to hold at least
one known age, otherwise the Python `int(nan)` raises). -/
theorem fill_age_imputation (df : List Patient) (row : Patient) (h w : ℚ)
    (hage : row.age = none) (hh : row.height = some h)
    (hw : row.weight = some w) (_hknown : df.filterMap (·.age) ≠ []) :
    (donorAgesSpec df h w ≠ [] →
      (fill_age df row).age =
        some ((pyInt (median (donorAgesSpec df h w) + 1/2) : ℤ) : ℚ)) ∧
    (donorAgesSpec df h w = [] →
      (fill_age df row).age =
        some ((pyInt (meanAge df + 1/2) : ℤ) : ℚ)) := by
  have hwin := ageWindow_eq_spec df row h w hh hw
  rw [fill_age, if_pos (by rw [hage]; rfl), hwin]
  constructor
  · intro hne
    rw [if_pos (List.length_pos.mpr hne)]
  · intro hnil
    rw [if_neg (by rw [hnil]; exact Nat.lt_irrefl 0)]

/-- C2 witness: a record with no age, height 170 and weight 70, next to a
donor of age 40 with the same height and weight. -/
theorem fill_age_imputation_witness :
    ((⟨none, some 170, some 70⟩ : Patient).age = none ∧
     (⟨none, some 170, some 70⟩ : Patient).height = some 170 ∧
     (⟨none, some 170, some 70⟩ : Patient).weight = some 70 ∧
     ([⟨none, some 170, some 70⟩,
       ⟨some 40, some 170, some 70⟩] : List Patient).filterMap (·.age) ≠ []) ∧
    ((donorAgesSpec [⟨none, some 170, some 70⟩,
        ⟨some 40, some 170, some 70⟩] 170 70 ≠ [] →
      (fill_age [⟨none, some 170, some 70⟩, ⟨some 40, some 170, some 70⟩]
          ⟨none, some 170, some 70⟩).age =
        some ((pyInt (median (donorAgesSpec [⟨none, some 170, some 70⟩,
          ⟨some 40, some 170, some 70⟩] 170 70) + 1/2) : ℤ) : ℚ)) ∧
     (donorAgesSpec [⟨none, some 170, some 70⟩,
        ⟨some 40, some 170, some 70⟩] 170 70 = [] →
      (fill_age [⟨none, some 170, some 70⟩, ⟨some 40, some 170, some 70⟩]
          ⟨none, some 170, some 70⟩).age =
        some ((pyInt (meanAge [⟨none, some 170, some 70⟩,
          ⟨some 40, some 170, some 70⟩] + 1/2) : ℤ) : ℚ))) :=
  ⟨⟨rfl, rfl, rfl, by simp⟩,
   fill_age_imputation _ _ 170 70 rfl rfl rfl (by simp)⟩

/-- C3: for every training label sequence in which every class code of
`range(len(bincount))` has at least one sample, the class-weight map of
`train` assigns to each class `c` the weight `total_samples / count c`, and
every weight in the map is finite and strictly positive. -/
theorem train_class_weight_inverse_frequency (y : List Nat)
    (h : ∀ i, i < bincountLen y → 0 < y.count i) :
    ∀ p ∈ class_weight y,
      p.2 = NpFloat.fin ((y.length : ℚ) / (y.count p.1 : ℚ)) ∧
      p.2.isPos = true := by
  intro p hp
  obtain ⟨hlt, hval⟩ := class_weight_shape y hp
  have hcount : 0 < y.count p.1 := h p.1 hlt
  have hfin : p.2 = NpFloat.fin ((y.length : ℚ) / (y.count p.1 : ℚ)) := by
    rw [hval, npDivNat, if_neg (Nat.pos_iff_ne_zero.mp hcount)]
  refine ⟨hfin, ?_⟩
  rw [hfin, NpFloat.isPos]
  have hlen : 0 < y.length :=
    length_pos_of_bincountLen_pos (Nat.pos_of_ne_zero (by omega))
  have hdiv : (0 : ℚ) < (y.length : ℚ) / (y.count p.1 : ℚ) :=
    div_pos (by exact_mod_cast hlen) (by exact_mod_cast hcount)
  exact decide_eq_true hdiv

/-- C3 witness: the labels `[0, 1, 1, 2]` hit every code from 0 through the
maximum, and every class weight is the inverse frequency, finite and
positive. -/
theorem train_class_weight_inverse_frequency_witness :
    (∀ i, i < bincountLen [0, 1, 1, 2] → 0 < List.count i [0, 1, 1, 2]) ∧
    ∀ p ∈ class_weight [0, 1, 1, 2],
      p.2 = NpFloat.fin ((List.length [0, 1, 1, 2] : ℚ) / (List.count p.1 [0, 1, 1, 2] : ℚ)) ∧
      p.2.isPos = true :=
  ⟨by decide, train_class_weight_inverse_frequency [0, 1, 1, 2] (by decide)⟩

/-- C10: `train` divides the total count by the bincount of every code from
0 through the maximum label, so a label sequence that skips a code in that
range produces an infinite weight for the missing code — the finite-positive
invariant fails — even though every class actually present has at least one
sample. -/
theorem train_class_weight_gap_is_inf (y : List Nat) (i : Nat)
    (hi : i < bincountLen y) (hc : y.count i = 0) :
    (i, NpFloat.inf) ∈ class_weight y ∧
    NpFloat.inf.isPos = false ∧
    ∀ c ∈ y, 0 < y.count c := by
  refine ⟨?_, rfl, fun c hc' => List.count_pos_iff.mpr hc'⟩
  have := class_weight_entry y i hi
  rwa [hc, npDivNat, if_pos rfl] at this

/-- C10 witness: the labels `[0, 2]` skip code 1, whose weight is the
infinity produced by the zero divisor. -/
theorem train_class_weight_gap_is_inf_witness :
    (1 < bincountLen [0, 2] ∧ List.count 1 [0, 2] = 0) ∧
    ((1, NpFloat.inf) ∈ class_weight [0, 2] ∧
     NpFloat.inf.isPos = false ∧
     ∀ c ∈ [0, 2], 0 < List.count c [0, 2]) :=
  ⟨⟨by decide, by decide⟩, train_class_weight_gap_is_inf [0, 2] 1 (by decide) (by decide)⟩

/-- C4 counterexample: `y_train = [0, 0, 0]` has a single distinct class,
yet `train` (default path, no search grid) returns a fitted model rather
than failing with a `TrainingError`. -/
theorem train_single_class_returns_model :
    [0, 0, 0].dedup.length = 1 ∧
    train (fun _ => ⟨100, 42⟩) [0, 0, 0] none =
      (.ok ⟨100, 42⟩, none) :=
  ⟨by decide, rfl⟩

/-- C4 (amended): `train` never fails with a `TrainingError` — the
repository defines no such exception and `train` contains no raise of its
own, its only failures being `ValueError`s propagated from the sklearn
calls — and in particular a `y_train` with fewer than 2 distinct classes is
not rejected: on the default (no-grid) path every non-empty `y_train`,
single-class included, returns a trained model. -/
theorem train_never_training_error (pick : ParamGrid → RFParams)
    (y : List Nat) (pg : Option ParamGrid) :
    (∀ e : TrainingError,
      (train pick y pg).1 ≠ .error (.trainingError e)) ∧
    (y ≠ [] → (train pick y none).1 = .ok ⟨100, 42⟩) := by
  constructor
  · intro e
    cases pg with
    | none =>
      by_cases hy : y.isEmpty <;> simp [train, hy]
    | some g =>
      simp only [train]
      split_ifs <;> simp
  · intro hy
    have hne : y.isEmpty = false := by
      cases hempty : y.isEmpty
      · rfl
      · exact absurd (List.isEmpty_iff.mp hempty) hy
    simp [train, hne]

/-- C9 counterexample: a search grid whose `class_weight` list is the
non-empty `["balanced"]` comes back from `train` with an extra appended
candidate — the caller's grid is mutated, not left equal to what was passed
in. -/
theorem train_mutates_caller_grid :
    (updateParamGrid [0, 1]
        ⟨[50, 100, 200], [some 20, some 30, none], [2, 5], [.balanced]⟩).class_weight.length = 2 ∧
    (⟨[50, 100, 200], [some 20, some 30, none], [2, 5],
        [.balanced]⟩ : ParamGrid).class_weight.length = 1 ∧
    updateParamGrid [0, 1]
        ⟨[50, 100, 200], [some 20, some 30, none], [2, 5], [.balanced]⟩ ≠
      ⟨[50, 100, 200], [some 20, some 30, none], [2, 5], [.balanced]⟩ := by
  refine ⟨rfl, rfl, fun h => ?_⟩
  have h2 := congrArg (fun g => g.class_weight.length) h
  simp only [] at h2
  exact absurd h2 (by decide)

/-- C9 (amended): the caller's grid comes out of `train` in the state
`updateParamGrid` describes — the in-place append happens before the
fallible sklearn call, so it is observable whether or not the fit raises —
and that state is unchanged exactly when the `class_weight` entry was
absent or empty; otherwise the computed class-weight dictionary has been
appended, i.e. `train` mutates its caller's `param_grid`. -/
theorem train_param_grid_final_state (pick : ParamGrid → RFParams)
    (y : List Nat) (g : ParamGrid) :
    (train pick y (some g)).2 = some (updateParamGrid y g) ∧
    (updateParamGrid y g = g ↔ g.class_weight = []) := by
  refine ⟨rfl, ?_, ?_⟩
  · intro h
    by_cases he : g.class_weight.isEmpty
    · exact List.isEmpty_iff.mp he
    · rw [updateParamGrid, if_neg he] at h
      have h2 := congrArg (fun g => g.class_weight.length) h
      simp only [List.length_append, List.length_cons, List.length_nil] at h2
      omega
  · intro h
    rw [updateParamGrid, if_pos (List.isEmpty_iff.mpr h)]

/-- C8: whenever the model's importance vector is aligned with the feature
table (one importance per column), `select_features` returns one
(name, importance) pair per input column, sorted by importance in
non-increasing order, and entries with equal importances keep their input
column order (the sort is stable). -/
theorem select_features_ranking (cols : List String) (imps : List ℚ)
    (hlen : imps.length = cols.length) :
    (select_features cols imps).length = cols.length ∧
    List.Pairwise (fun a b => b.2 ≤ a.2) (select_features cols imps) ∧
    (select_features cols imps).Perm (cols.zip imps) ∧
    ∀ q : ℚ, (select_features cols imps).filter (fun p => decide (p.2 = q)) =
      (cols.zip imps).filter (fun p => decide (p.2 = q)) := by
  simp only [select_features]
  have hperm : ((cols.zip imps).mergeSort featImportDesc).Perm (cols.zip imps) :=
    List.mergeSort_perm _ _
  refine ⟨?_, ?_, hperm, ?_⟩
  · rw [hperm.length_eq, List.length_zip, hlen, Nat.min_self]
  · have hsort :=
      List.sorted_mergeSort featImportDesc_trans featImportDesc_total
        (cols.zip imps)
    exact hsort.imp (fun h => of_decide_eq_true h)
  · intro q
    have hpair : List.Pairwise (fun a b => featImportDesc a b = true)
        ((cols.zip imps).filter (fun p => decide (p.2 = q))) := by
      apply List.pairwise_of_forall_mem_list
      intro a ha b hb
      have ha2 : a.2 = q := of_decide_eq_true (List.mem_filter.mp ha).2
      have hb2 : b.2 = q := of_decide_eq_true (List.mem_filter.mp hb).2
      simp [featImportDesc, ha2, hb2]
    have hsub : ((cols.zip imps).filter (fun p => decide (p.2 = q))).Sublist
        ((cols.zip imps).mergeSort featImportDesc) :=
      List.mergeSort_stable featImportDesc_trans featImportDesc_total hpair
        (List.filter_sublist _)
    have hself : (fun a : String × ℚ =>
        decide (a.2 = q) && decide (a.2 = q)) = fun a => decide (a.2 = q) := by
      funext a
      exact Bool.and_self _
    have hsub2 : ((cols.zip imps).filter (fun p => decide (p.2 = q))).Sublist
        (((cols.zip imps).mergeSort featImportDesc).filter
          (fun p => decide (p.2 = q))) := by
      have h3 := List.Sublist.filter (fun p => decide (p.2 = q)) hsub
      rwa [List.filter_filter, hself] at h3
    have hlen2 : (((cols.zip imps).mergeSort featImportDesc).filter
        (fun p => decide (p.2 = q))).length =
          ((cols.zip imps).filter (fun p => decide (p.2 = q))).length :=
      (hperm.filter _).length_eq
    exact (hsub2.eq_of_length hlen2.symm).symm

/-- C8 witness: three columns with importances one half, three quarters and
one half — the ranking is sorted descending and the two tied columns keep
their input order. -/
theorem select_features_ranking_witness :
    ([(1 : ℚ)/2, 3/4, 1/2].length = ["a", "b", "c"].length) ∧
    ((select_features ["a", "b", "c"] [1/2, 3/4, 1/2]).length =
        ["a", "b", "c"].length ∧
     List.Pairwise (fun a b => b.2 ≤ a.2)
        (select_features ["a", "b", "c"] [1/2, 3/4, 1/2]) ∧
     (select_features ["a", "b", "c"] [1/2, 3/4, 1/2]).Perm
        (["a", "b", "c"].zip [1/2, 3/4, 1/2]) ∧
     ∀ q : ℚ, (select_features ["a", "b", "c"] [1/2, 3/4, 1/2]).filter
          (fun p => decide (p.2 = q)) =
        (["a", "b", "c"].zip [1/2, 3/4, 1/2]).filter
          (fun p => decide (p.2 = q))) :=
  ⟨rfl, select_features_ranking ["a", "b", "c"] [1/2, 3/4, 1/2] rfl⟩

/-- C7 counterexample: a per-class row with support 1 — the rendering
multiplies that support by 100 (because the scaling guard is `value > 1`),
so the support cell becomes 100, not the unchanged count 1. -/
theorem create_report_table_support_one_scaled :
    (renderClassRow ⟨1/2, 1, 2/3, 1⟩).getD 3 0 = 100 ∧
    ((100 : ℚ) ≠ ((1 : Nat) : ℚ)) := by
  constructor
  · show renderCell ((1 : Nat) : ℚ) = 100
    norm_num [renderCell, pyRound2, roundHalfEven]
  · norm_num

/-- C7 (amended): in a rendered per-class row, every precision, recall and
f1-score value (each at most 1) is multiplied by 100 and rounded to 2
decimals, and the support value is left unchanged as an integer count
provided it exceeds 1 (a support of 0 or 1 instead falls into the ×100
branch). -/
theorem create_report_table_cells (m : ClassMetrics)
    (hp : m.precision ≤ 1) (hr : m.recall' ≤ 1) (hf : m.f1 ≤ 1)
    (hs : 1 < m.support) :
    renderClassRow m =
      [pyRound2 (m.precision * 100), pyRound2 (m.recall' * 100),
       pyRound2 (m.f1 * 100), (m.support : ℚ)] := by
  have hs' : (1 : ℚ) < (m.support : ℚ) := by exact_mod_cast hs
  rw [renderClassRow, renderCell, renderCell, renderCell, renderCell,
    if_neg (not_lt.mpr hp), if_neg (not_lt.mpr hr), if_neg (not_lt.mpr hf),
    if_pos hs']

/-- C6: when the table (with its droppable columns present) lacks any of the
required columns `age`, `height`, `weight`, `format_df` fails with the
schema `ValueError` of `fill_age_height_weight`, before any imputation or
encoding produces an output table. -/
theorem format_df_missing_required_column (cols : List String)
    (hdrop : ∀ c ∈ DROP_COLUMNS, c ∈ cols)
    (hmiss : ∃ c ∈ requiredColumns, c ∉ cols) :
    format_df_schema cols = .error .valueError := by
  obtain ⟨c, hcr, hcn⟩ := hmiss
  have h1 : DROP_COLUMNS.all (fun c => cols.contains c) = true :=
    List.all_eq_true.mpr (fun x hx => List.elem_iff.mpr (hdrop x hx))
  have hfil : c ∉ cols.filter (fun c => !(DROP_COLUMNS.contains c)) :=
    fun hmem => hcn (List.mem_filter.mp hmem).1
  have h2 : requiredColumns.all
      (fun x => (cols.filter (fun c => !(DROP_COLUMNS.contains c))).contains x)
        = false :=
    List.all_eq_false.mpr ⟨c, hcr, fun hcont => hfil (List.elem_iff.mp hcont)⟩
  have e1 : pdDropColumns cols DROP_COLUMNS =
      .ok (cols.filter (fun c => !(DROP_COLUMNS.contains c))) := by
    rw [pdDropColumns, if_pos h1]
  have e2 : fill_age_height_weight_schema
      (cols.filter (fun c => !(DROP_COLUMNS.contains c))) =
        .error .valueError := by
    rw [fill_age_height_weight_schema,
      if_neg (fun hcond => by rw [h2] at hcond; exact Bool.noConfusion hcond)]
  unfold format_df_schema
  rw [e1]
  dsimp only
  rw [e2]

/-- C6 witness: a table holding every droppable column plus `height`,
`weight`, `sex`, `heart_axis`, `pacemaker` and `diagnosi` but no `age`
column. -/
theorem format_df_missing_required_column_witness :
    ((∀ c ∈ DROP_COLUMNS,
        c ∈ DROP_COLUMNS ++ ["height", "weight", "sex", "heart_axis",
          "pacemaker", "diagnosi"]) ∧
     (∃ c ∈ requiredColumns,
        c ∉ DROP_COLUMNS ++ ["height", "weight", "sex", "heart_axis",
          "pacemaker", "diagnosi"])) ∧
    format_df_schema (DROP_COLUMNS ++ ["height", "weight", "sex",
      "heart_axis", "pacemaker", "diagnosi"]) = .error .valueError :=
  ⟨⟨by decide, by decide⟩,
   format_df_missing_required_column _ (by decide) (by decide)⟩

/-- C5: at the failing input `y_test = [0, 0, 1]`, `y_pred = [0, 1, 1]`,
the confusion matrix of `create_reports` is 2×2 — only the labels present
in the data get rows and columns — while the closed diagnosis-label set
`CM_LABELS` has 10 labels, so the absent 8 labels have no all-zero
rows/columns at all. -/
theorem create_reports_cm_omits_absent_labels :
    (create_reports_cm [0, 0, 1] [0, 1, 1]).length = 2 ∧
    (∀ row ∈ create_reports_cm [0, 0, 1] [0, 1, 1], row.length = 2) ∧
    CM_LABELS.length = 10 := by
  have h1 : (presentLabels [0, 0, 1] [0, 1, 1]).length = 2 := by
    rw [presentLabels, (List.mergeSort_perm _ _).length_eq]
    decide
  refine ⟨?_, ?_, rfl⟩
  · rw [create_reports_cm, confusion_matrix, List.length_map, h1]
  · intro row hrow
    rw [create_reports_cm, confusion_matrix] at hrow
    obtain ⟨i, _, rfl⟩ := List.mem_map.mp hrow
    rw [List.length_map, h1]

/-- C7 witness: a concrete row with ratios 1, 0, 1 and support 5. -/
theorem create_report_table_cells_witness :
    ((1 : ℚ) ≤ 1 ∧ (0 : ℚ) ≤ 1 ∧ (1 : ℚ) ≤ 1 ∧ 1 < 5) ∧
    renderClassRow ⟨1, 0, 1, 5⟩ =
      [pyRound2 ((1 : ℚ) * 100), pyRound2 ((0 : ℚ) * 100),
       pyRound2 ((1 : ℚ) * 100), ((5 : Nat) : ℚ)] :=
  ⟨⟨le_refl 1, zero_le_one, le_refl 1, by decide⟩,
   create_report_table_cells ⟨1, 0, 1, 5⟩ (le_refl 1) zero_le_one (le_refl 1)
     (by decide)⟩

end ECG
